import Mathlib

/-!
Verification development for the sprout build pipeline (Go package `nix`
of github.com/fcjr/sprout, files src/nix/nix.go, src/nix/build.go,
src/nix/build_docker.go and src/internal/nix/docker.go).

Modelling conventions:
* Go strings are lists of characters (`Str`); byte streams are lists of
  natural numbers below 256.
* The filesystem is an abstract oracle (`FS`) giving the outcomes of
  `os.Stat` and `os.ReadDir`; a stat error is modelled as absence.
* Fallible functions return `Option`; `none` is the error case.
Every definition is translated from the Go source; the few definitions
that are instead written from the design document (because the artifact
they model is not part of the sources) say so in their doc comment.
-/

namespace Sprout

/-- Go strings, modelled as lists of characters. -/
abbrev Str := List Char

/-- `unicode.IsSpace` as consulted by `strings.TrimSpace`, on the
Latin-1 range (tab, newline, vertical tab, form feed, carriage return,
space, next-line, no-break space). -/
def goIsSpace (c : Char) : Bool :=
  c == ' ' || c == '\t' || c == '\n' || c == '\r' ||
  c == Char.ofNat 11 || c == Char.ofNat 12 || c == Char.ofNat 133 || c == Char.ofNat 160

/-- `strings.TrimSpace`: drop leading and trailing white space. -/
def trimSpace (s : Str) : Str :=
  ((s.dropWhile goIsSpace).reverse.dropWhile goIsSpace).reverse

/-- `strings.ReplaceAll` with a one-character pattern and a
one-character replacement substitutes every occurrence of the pattern
character, i.e. it acts characterwise. -/
def replaceChar (pat rep : Char) (s : Str) : Str :=
  s.map fun c => if c = pat then rep else c

/-- The sanitization performed in `processDockerComposeImages`
(src/nix/nix.go lines 162-164): `ReplaceAll "/" "_"`, then
`ReplaceAll ":" "_"`, then `ReplaceAll "-" "_"`. -/
def safeImageName (s : Str) : Str :=
  replaceChar '-' '_' (replaceChar ':' '_' (replaceChar '/' '_' s))

/-- `fmt.Sprintf("embedded/%s", safeImageName)` (src/nix/nix.go line 166). -/
def localTagOf (imageName : Str) : Str :=
  ("embedded/".toList) ++ safeImageName imageName

/-- The archive path `fmt.Sprintf("/tmp/%s", tarFileName)` with
`tarFileName = fmt.Sprintf("%s.tar", safeImageName)`
(src/nix/nix.go lines 167, 172). -/
def tarPathOf (imageName : Str) : Str :=
  ("/tmp/".toList) ++ safeImageName imageName ++ (".tar".toList)

/-- The characterwise effect of the three substitutions. -/
def sanitizeChar (c : Char) : Char :=
  if c = '/' then '_' else if c = ':' then '_' else if c = '-' then '_' else c

lemma safeImageName_eq_map (s : Str) : safeImageName s = s.map sanitizeChar := by
  simp only [safeImageName, replaceChar, List.map_map]
  refine List.map_congr_left fun c _ => ?_
  by_cases h1 : c = '/' <;> by_cases h2 : c = ':' <;> by_cases h3 : c = '-' <;>
    simp_all [sanitizeChar, Function.comp]

lemma sanitizeChar_idem (c : Char) : sanitizeChar (sanitizeChar c) = sanitizeChar c := by
  by_cases h1 : c = '/' <;> by_cases h2 : c = ':' <;> by_cases h3 : c = '-' <;>
    simp_all [sanitizeChar]

/-- C8: local-tag derivation is pure — it is the function `localTagOf`
of the canonical reference alone — its sanitization step
`safeImageName` is idempotent, and there exist two distinct canonical
references (`"a/b"` and `"a:b"`) with identical sanitized forms, hence
identical local tags: a documented collision. -/
theorem C8_sanitize_idempotent_and_collision :
    (∀ s : Str, safeImageName (safeImageName s) = safeImageName s) ∧
    (∃ a b : Str, a ≠ b ∧ safeImageName a = safeImageName b ∧ localTagOf a = localTagOf b) := by
  constructor
  · intro s
    rw [safeImageName_eq_map, safeImageName_eq_map, List.map_map]
    exact List.map_congr_left fun c _ => sanitizeChar_idem c
  · exact ⟨"a/b".toList, "a:b".toList, by decide, by decide, by decide⟩

/-- The build backend chosen by `Nix.Build`. -/
inductive Backend where
  | localNix
  | docker
deriving DecidableEq

/-- The environment state consulted by `Nix.Build`
(src/nix/build.go lines 58-71): the value returned by
`os.Getenv("SPROUT_DISABLE_LOCAL_NIX")` (the empty string when the
variable is unset) and the result of `exec.LookPath("nix-build")`
(`none` when the binary does not resolve on the search path). -/
structure BuildEnv where
  disableLocalNix : Str
  nixBuildPath : Option Str

/-- The backend decision of `Nix.Build` (src/nix/build.go lines 58-71):
a non-empty disable variable forces the Docker build, otherwise a
resolvable `nix-build` binary selects the local build, otherwise the
Docker build. -/
def selectBackend (env : BuildEnv) : Backend :=
  if env.disableLocalNix ≠ [] then .docker
  else
    match env.nixBuildPath with
    | some _ => .localNix
    | none => .docker

/-- C5: BuildBackendSelector decides in strict order: a set (non-empty)
SPROUT_DISABLE_LOCAL_NIX selects the Containerized backend even when
nix-build is present on the search path; otherwise a resolvable
nix-build selects the Local backend; otherwise Containerized. -/
theorem C5_backend_selection (env : BuildEnv) :
    (env.disableLocalNix ≠ [] → selectBackend env = .docker) ∧
    (env.disableLocalNix = [] → env.nixBuildPath.isSome → selectBackend env = .localNix) ∧
    (env.disableLocalNix = [] → env.nixBuildPath = none → selectBackend env = .docker) := by
  refine ⟨fun h => ?_, fun h hs => ?_, fun h hn => ?_⟩
  · simp [selectBackend, h]
  · obtain ⟨p, hp⟩ := Option.isSome_iff_exists.mp hs
    simp [selectBackend, h, hp]
  · simp [selectBackend, h, hn]

/-- Witness for C5: the disable variable set to "1" forces the Docker
backend even with nix-build present at /usr/bin/nix-build. -/
theorem C5_backend_selection_witness :
    selectBackend ⟨"1".toList, some ("/usr/bin/nix-build".toList)⟩ = Backend.docker :=
  (C5_backend_selection ⟨"1".toList, some ("/usr/bin/nix-build".toList)⟩).1 (by decide)

/-- The action `buildOrPullImage` takes for one resolved image. -/
inductive ImageAction where
  | buildService (serviceName : Str)
  | pullImage (imageName : Str)
deriving DecidableEq

/-- `strings.TrimSuffix`: remove the trailing pattern when present. -/
def trimSuffixGo (s pat : Str) : Str :=
  if pat.isSuffixOf s then s.take (s.length - pat.length) else s

/-- The build-vs-pull decision of `buildOrPullImage`
(src/internal/nix/docker.go lines 136-141, identical to the inline test
in `buildAndSaveDockerImages`, src/nix/nix.go lines 239-247): an image
name ending in ":latest" and containing no "/" is built locally via
docker-compose for the service named by trimming the ":latest" suffix;
every other name is pulled. -/
def buildOrPullImage (imageName : Str) : ImageAction :=
  if (":latest".toList).isSuffixOf imageName && !imageName.contains '/' then
    .buildService (trimSuffixGo imageName (":latest".toList))
  else
    .pullImage imageName

/-- C10: the build-vs-pull decision is purely by the shape of the
canonical reference: every reference ending in ":latest" with no "/"
(also an explicit user-declared one such as redis:latest) is built as a
compose service named by the reference minus the suffix, and is never
pulled; every other reference is pulled. -/
theorem C10_build_pull_by_shape (imageName : Str) :
    ((":latest".toList).isSuffixOf imageName = true → imageName.contains '/' = false →
      buildOrPullImage imageName =
        ImageAction.buildService (trimSuffixGo imageName (":latest".toList))) ∧
    ((":latest".toList).isSuffixOf imageName = false ∨ imageName.contains '/' = true →
      buildOrPullImage imageName = ImageAction.pullImage imageName) := by
  constructor
  · intro h1 h2
    simp at h1 h2
    simp [buildOrPullImage, h1, h2]
  · intro h
    rcases h with h | h <;> · simp at h; simp [buildOrPullImage, h]

/-- Witness for C10: the explicit user-declared reference redis:latest
is built (service "redis"), not pulled. -/
theorem C10_build_pull_by_shape_witness :
    buildOrPullImage ("redis:latest".toList) = ImageAction.buildService ("redis".toList) := by
  rw [(C10_build_pull_by_shape ("redis:latest".toList)).1 (by decide) (by decide)]
  decide

/-- One service of the parsed compose project: its name, its declared
image reference (empty when none is declared) and whether it declares a
build context (`service.Build != nil`). -/
structure Service where
  name : Str
  image : Str
  hasBuild : Bool
deriving DecidableEq

/-- A resolved image entry (`DockerImage`, src/nix/nix.go lines 46-50). -/
structure DockerImage where
  name : Str
  localTag : Str
  tarPath : Str
deriving DecidableEq

/-- The image name chosen for a service in the extraction loop of
`processDockerComposeImages` (src/nix/nix.go lines 150-158): the
declared image when non-empty, else the synthesized
`<serviceName>:latest` when the service has a build context, else none
(the empty string). -/
def imageNameOf (s : Service) : Str :=
  if s.image ≠ [] then s.image
  else if s.hasBuild then s.name ++ (":latest".toList)
  else []

/-- The extraction loop of `processDockerComposeImages`
(src/nix/nix.go lines 149-176): walk the services, skip empty image
names and names already in the seen set (`imageMap`), and emit one
`DockerImage` per first occurrence of a name. -/
def resolveLoop : List Service → List Str → List DockerImage
  | [], _ => []
  | s :: rest, seen =>
    let iname := imageNameOf s
    if iname ≠ [] ∧ iname ∉ seen then
      ⟨iname, localTagOf iname, tarPathOf iname⟩ :: resolveLoop rest (iname :: seen)
    else
      resolveLoop rest seen

/-- `processDockerComposeImages` restricted to its image extraction:
the list assigned to `dockerConfig.Images`. -/
def processImages (services : List Service) : List DockerImage :=
  resolveLoop services []

/-- The name-to-local-tag map built by `createModifiedComposeContent`
(src/nix/nix.go lines 197-200); a Go map lookup of a missing key yields
the empty string, and a later binding overwrites an earlier one. -/
def lookupTag (images : List DockerImage) (imageName : Str) : Str :=
  match images.reverse.find? (fun im => im.name == imageName) with
  | some im => im.localTag
  | none => []

/-- The per-service rewriting of `createModifiedComposeContent`
(src/nix/nix.go lines 203-213): a service with a non-empty image that
the mapping knows gets the mapped tag (its build context untouched); a
remaining service with a build context gets the tag
`fmt.Sprintf("embedded/%s_latest", serviceName)` built from the raw
service name, and its build context removed. -/
def rewriteService (images : List DockerImage) (s : Service) : Service :=
  if s.image ≠ [] ∧ lookupTag images s.image ≠ [] then
    { s with image := lookupTag images s.image }
  else if s.hasBuild then
    { s with image := ("embedded/".toList) ++ s.name ++ ("_latest".toList), hasBuild := false }
  else s

/-- The full rewriting pass of `createModifiedComposeContent` over the
project's services. -/
def createModifiedCompose (images : List DockerImage) (services : List Service) : List Service :=
  services.map (rewriteService images)

/-- C2 evaluated at its failing input: a project with a service
"my-app" (build context, no image) and a service "db" (image "redis"
and a build context).  The resolver registers local tag
embedded/my_app_latest (sanitized) for my-app:latest, but the rewriting
pass writes embedded/my-app_latest (raw service name) into the modified
specification; and the rewritten "db" keeps its build context. -/
theorem C2_rewrite_failing_input :
    processImages
        [⟨"my-app".toList, [], true⟩, ⟨"db".toList, "redis".toList, true⟩] =
      [⟨"my-app:latest".toList, "embedded/my_app_latest".toList,
          "/tmp/my_app_latest.tar".toList⟩,
        ⟨"redis".toList, "embedded/redis".toList, "/tmp/redis.tar".toList⟩] ∧
    createModifiedCompose
        (processImages
          [⟨"my-app".toList, [], true⟩, ⟨"db".toList, "redis".toList, true⟩])
        [⟨"my-app".toList, [], true⟩, ⟨"db".toList, "redis".toList, true⟩] =
      [⟨"my-app".toList, "embedded/my-app_latest".toList, false⟩,
        ⟨"db".toList, "embedded/redis".toList, true⟩] ∧
    ("embedded/my-app_latest".toList ≠ "embedded/my_app_latest".toList) := by
  refine ⟨by decide, by decide, by decide⟩

/-- C3 counterexample: two services declaring the distinct images "a/b"
and "a:b" yield M = 2 entries whose local tags coincide, refuting the
pairwise distinctness of local tags claimed for distinct canonical
references. -/
theorem C3_counterexample :
    (processImages [⟨"s1".toList, "a/b".toList, false⟩, ⟨"s2".toList, "a:b".toList, false⟩]).length = 2 ∧
    (processImages [⟨"s1".toList, "a/b".toList, false⟩, ⟨"s2".toList, "a:b".toList, false⟩]).map
        (fun im => im.name) = ["a/b".toList, "a:b".toList] ∧
    ¬ ((processImages [⟨"s1".toList, "a/b".toList, false⟩, ⟨"s2".toList, "a:b".toList, false⟩]).map
        (fun im => im.localTag)).Nodup := by
  refine ⟨by decide, by decide, by decide⟩

lemma resolveLoop_fields (services : List Service) :
    ∀ seen, ∀ im ∈ resolveLoop services seen,
      im.localTag = localTagOf im.name ∧ im.tarPath = tarPathOf im.name := by
  induction services with
  | nil => intro seen im h; simp [resolveLoop] at h
  | cons s rest ih =>
      intro seen im h
      simp only [resolveLoop] at h
      split at h
      · rcases List.mem_cons.mp h with h | h
        · subst h; exact ⟨rfl, rfl⟩
        · exact ih _ im h
      · exact ih _ im h

lemma mem_resolveLoop_names (services : List Service) :
    ∀ seen r, r ∈ (resolveLoop services seen).map (fun im => im.name) ↔
      (r ∈ services.map imageNameOf ∧ r ≠ [] ∧ r ∉ seen) := by
  induction services with
  | nil => intro seen r; simp [resolveLoop]
  | cons s rest ih =>
      intro seen r
      simp only [resolveLoop]
      split
      · rename_i hcond
        simp only [List.map_cons, List.mem_cons, ih]
        constructor
        · rintro (rfl | ⟨hm, hne, hns⟩)
          · exact ⟨Or.inl rfl, hcond.1, hcond.2⟩
          · exact ⟨Or.inr hm, hne, fun hmem => hns (Or.inr hmem)⟩
        · rintro ⟨hm | hm, hne, hns⟩
          · exact Or.inl hm
          · by_cases hr : r = imageNameOf s
            · exact Or.inl hr
            · exact Or.inr ⟨hm, hne, fun hc => hc.elim hr hns⟩
      · rename_i hcond
        rw [not_and_or, not_not, not_not] at hcond
        simp only [List.map_cons, List.mem_cons, ih]
        constructor
        · rintro ⟨hm, hne, hns⟩
          exact ⟨Or.inr hm, hne, hns⟩
        · rintro ⟨hm | hm, hne, hns⟩
          · exfalso
            rcases hcond with hc | hc
            · exact hne (hm.trans hc)
            · exact hns (hm.symm ▸ hc)
          · exact ⟨hm, hne, hns⟩

lemma resolveLoop_names_nodup (services : List Service) :
    ∀ seen, ((resolveLoop services seen).map (fun im => im.name)).Nodup ∧
      ∀ r ∈ (resolveLoop services seen).map (fun im => im.name), r ∉ seen := by
  induction services with
  | nil => intro seen; simp [resolveLoop]
  | cons s rest ih =>
      intro seen
      simp only [resolveLoop]
      split
      · rename_i hcond
        obtain ⟨hnd, hseen⟩ := ih (imageNameOf s :: seen)
        simp only [List.map_cons, List.nodup_cons]
        refine ⟨⟨fun hmem => ?_, hnd⟩, ?_⟩
        · exact (hseen _ hmem) (List.mem_cons_self _ _)
        · intro r hr
          rcases List.mem_cons.mp hr with rfl | hr
          · exact hcond.2
          · exact fun hmem => hseen r hr (List.mem_cons_of_mem _ hmem)
      · exact ih seen

/-- C3 (amended): for every list of services whose declared (or
synthesized `<serviceName>:latest`) image names cover M distinct
canonical references, the resolver produces exactly M entries, exactly
one per distinct canonical reference, and the local tags of those
entries are pairwise distinct whenever the sanitized forms of the M
distinct references are pairwise distinct (distinct references whose
sanitized forms collide share a local tag). -/
theorem C3_resolver_dedup (services : List Service) :
    ((processImages services).map (fun im => im.name)).Nodup ∧
    (∀ r, r ∈ (processImages services).map (fun im => im.name) ↔
      r ∈ ((services.map imageNameOf).filter (fun r => !r.isEmpty)).dedup) ∧
    (processImages services).length =
      ((services.map imageNameOf).filter (fun r => !r.isEmpty)).dedup.length ∧
    ((((services.map imageNameOf).filter (fun r => !r.isEmpty)).dedup.map safeImageName).Nodup →
      ((processImages services).map (fun im => im.localTag)).Nodup) := by
  have hmem : ∀ r, r ∈ (processImages services).map (fun im => im.name) ↔
      r ∈ ((services.map imageNameOf).filter (fun r => !r.isEmpty)).dedup := by
    intro r
    simp only [processImages]
    rw [List.mem_dedup, List.mem_filter, mem_resolveLoop_names services [] r]
    simp [List.isEmpty_iff, and_comm]
  have hnd : ((processImages services).map (fun im => im.name)).Nodup :=
    (resolveLoop_names_nodup services []).1
  have hperm : ((processImages services).map (fun im => im.name)).Perm
      ((services.map imageNameOf).filter (fun r => !r.isEmpty)).dedup :=
    (List.perm_ext_iff_of_nodup hnd (List.nodup_dedup _)).mpr hmem
  refine ⟨hnd, hmem, ?_, ?_⟩
  · rw [← hperm.length_eq, List.length_map]
  · intro hsan
    have hsan2 : (((processImages services).map (fun im => im.name)).map safeImageName).Nodup :=
      ((hperm.map safeImageName).nodup_iff).mpr hsan
    have heq : (processImages services).map (fun im => im.localTag) =
        (((processImages services).map (fun im => im.name)).map safeImageName).map
          (fun t => ("embedded/".toList) ++ t) := by
      rw [List.map_map, List.map_map]
      refine List.map_congr_left fun im hmemi => ?_
      exact (resolveLoop_fields services [] im hmemi).1
    rw [heq]
    exact hsan2.map (fun a b h => List.append_cancel_left h)

/-- Witness for C3: two services sharing image "redis:7" plus one
distinct image "postgres" give M = 2 entries with distinct local
tags. -/
theorem C3_resolver_dedup_witness :
    ((processImages [⟨"s1".toList, "redis:7".toList, false⟩,
        ⟨"s2".toList, "redis:7".toList, false⟩,
        ⟨"s3".toList, "postgres".toList, false⟩]).map (fun im => im.localTag)).Nodup :=
  (C3_resolver_dedup [⟨"s1".toList, "redis:7".toList, false⟩,
      ⟨"s2".toList, "redis:7".toList, false⟩,
      ⟨"s3".toList, "postgres".toList, false⟩]).2.2.2 (by decide)

/-- The filesystem oracle consulted by `FindImageFile`: `stat p` is
`some isDir` when `os.Stat` succeeds (recording whether the path is a
directory) and `none` when it errors (modelled as non-existence);
`readDir p` lists the directory entries (name, isDir) in directory
order, or `none` on error. -/
structure FS where
  stat : Str → Option Bool
  readDir : Str → Option (List (Str × Bool))

/-- One filesystem probe performed by `FindImageFile`. -/
inductive Probe where
  | statCall (p : Str)
  | readDirCall (p : Str)
deriving DecidableEq

/-- `filepath.Ext`: the suffix of the final path element starting at
its last dot, or empty when the final element has no dot. -/
def goExt (p : Str) : Str :=
  let r := p.reverse
  let pre := r.takeWhile fun c => !(c == '.' || c == '/')
  match r.drop pre.length with
  | '.' :: _ => '.' :: pre.reverse
  | _ => []

/-- `filepath.Base`: the last element of the path after removing
trailing separators; "." for the empty path, "/" for all-separator
paths. -/
def goBase (p : Str) : Str :=
  if p = [] then ['.']
  else
    let q := (p.reverse.dropWhile (fun c => c == '/')).reverse
    if q = [] then ['/']
    else (q.reverse.takeWhile fun c => !(c == '/')).reverse

/-- `filepath.Join` of a directory path and a relative name.  (The
paths handled here are already clean, so the `Clean` step of `Join` is
the identity.) -/
def goJoin (dir rel : Str) : Str :=
  dir ++ '/' :: rel

/-- `strings.Contains`: the pattern occurs as a contiguous substring. -/
def strContains (s pat : Str) : Bool :=
  (List.range (s.length + 1)).any fun i => pat.isPrefixOf (s.drop i)

/-- The image-file extension ".img" tested by `FindImageFile`. -/
def imgExt : Str := ".img".toList

/-- The marker substring "sprout-docker-" that `FindImageFile` searches
for in the reported path. -/
def dockerMarker : Str := "sprout-docker-".toList

/-- The well-known artifact filename "result.img" of Docker builds. -/
def resultImgName : Str := "result.img".toList

/-- The conventional subdirectory "sd-image" of local nix-build
results. -/
def sdImageName : Str := "sd-image".toList

/-- `FindImageFile` (src/nix/nix.go lines 449-500), instrumented with
the list of filesystem probes it performs.  Resolution: a stat failure
on the reported path is an error; an existing non-directory whose
extension is ".img" is returned directly; a path containing
"sprout-docker-" takes the Docker branch (return the path itself when
its base name is "result.img" and it is not a directory, error when it
is a directory named "result.img", otherwise return path/result.img
when that stats successfully, else error); every other path takes the
sd-image branch (error when path/sd-image does not exist or cannot be
listed, otherwise return the first non-directory entry with extension
".img", error when there is none). -/
def FindImageFile (fs : FS) (basePath : Str) : Option Str × List Probe :=
  match fs.stat basePath with
  | none => (none, [Probe.statCall basePath])
  | some isDir =>
    if isDir = false ∧ goExt basePath = imgExt then
      (some basePath, [Probe.statCall basePath])
    else if strContains basePath dockerMarker then
      if goBase basePath = resultImgName then
        if isDir = false then (some basePath, [Probe.statCall basePath])
        else (none, [Probe.statCall basePath])
      else
        match fs.stat (goJoin basePath resultImgName) with
        | some _ => (some (goJoin basePath resultImgName),
            [Probe.statCall basePath, Probe.statCall (goJoin basePath resultImgName)])
        | none => (none,
            [Probe.statCall basePath, Probe.statCall (goJoin basePath resultImgName)])
    else
      match fs.stat (goJoin basePath sdImageName) with
      | none => (none, [Probe.statCall basePath, Probe.statCall (goJoin basePath sdImageName)])
      | some _ =>
        match fs.readDir (goJoin basePath sdImageName) with
        | none => (none, [Probe.statCall basePath, Probe.statCall (goJoin basePath sdImageName),
            Probe.readDirCall (goJoin basePath sdImageName)])
        | some entries =>
          match entries.find? (fun e => !e.2 && goExt e.1 == imgExt) with
          | some e => (some (goJoin (goJoin basePath sdImageName) e.1),
              [Probe.statCall basePath, Probe.statCall (goJoin basePath sdImageName),
                Probe.readDirCall (goJoin basePath sdImageName)])
          | none => (none,
              [Probe.statCall basePath, Probe.statCall (goJoin basePath sdImageName),
                Probe.readDirCall (goJoin basePath sdImageName)])

/-- C9: a path naming an existing regular (non-directory) file whose
extension is ".img" is returned unchanged, and the only filesystem
probe performed is the initial stat of that path — no well-known
filename or subdirectory lookup happens. -/
theorem C9_img_path_returned_directly (fs : FS) (p : Str)
    (hstat : fs.stat p = some false) (hext : goExt p = imgExt) :
    FindImageFile fs p = (some p, [Probe.statCall p]) := by
  simp [FindImageFile, hstat, hext]

/-- A one-file filesystem used to witness C9. -/
def fsC9 : FS :=
  ⟨fun p => if p = ("/build/out.img".toList) then some false else none, fun _ => none⟩

/-- Witness for C9 at the concrete path /build/out.img. -/
theorem C9_img_path_returned_directly_witness :
    FindImageFile fsC9 ("/build/out.img".toList) =
      (some ("/build/out.img".toList), [Probe.statCall ("/build/out.img".toList)]) :=
  C9_img_path_returned_directly fsC9 ("/build/out.img".toList) (by decide) (by decide)

/-- Spec-side strategy for containerized results, stated from the
claim's words: look for the well-known filename result.img inside the
reported path, or accept the path directly if it already names that
file (a directory named result.img is an error). -/
def containerizedStrategy (fs : FS) (p : Str) : Option Str :=
  if goBase p = resultImgName then
    match fs.stat p with
    | some false => some p
    | _ => none
  else
    match fs.stat (goJoin p resultImgName) with
    | some _ => some (goJoin p resultImgName)
    | none => none

/-- Spec-side strategy for local results, stated from the claim's
words: look inside the sd-image subdirectory of the reported path for
the first (non-directory) file with the .img extension. -/
def localStrategy (fs : FS) (p : Str) : Option Str :=
  match fs.stat (goJoin p sdImageName) with
  | none => none
  | some _ =>
    match fs.readDir (goJoin p sdImageName) with
    | none => none
    | some entries =>
      match entries.find? (fun e => !e.2 && goExt e.1 == imgExt) with
      | some e => some (goJoin (goJoin p sdImageName) e.1)
      | none => none

/-- C1 (amended): `FindImageFile` receives no backend-kind tag; it
chooses its resolution strategy by inspecting the text of the reported
path.  For an existing path that is not directly an .img file: when the
path text contains the marker substring "sprout-docker-" it resolves
with the containerized strategy (well-known filename result.img), and
when it does not it resolves with the local strategy (first .img file
of the sd-image subdirectory) — regardless of which backend actually
produced the path. -/
theorem C1_dispatch_on_path_text (fs : FS) (p : Str) (isDir : Bool)
    (hstat : fs.stat p = some isDir) (hdirect : ¬ (isDir = false ∧ goExt p = imgExt)) :
    (strContains p dockerMarker = true →
      (FindImageFile fs p).1 = containerizedStrategy fs p) ∧
    (strContains p dockerMarker = false →
      (FindImageFile fs p).1 = localStrategy fs p) := by
  constructor
  · intro hmark
    simp only [FindImageFile, hstat, hdirect, if_false, hmark, if_true, containerizedStrategy]
    split
    · cases isDir <;> simp
    · cases h : fs.stat (goJoin p resultImgName) <;> simp [h]
  · intro hmark
    simp only [FindImageFile, hstat, hdirect, if_false, hmark, localStrategy,
      Bool.false_eq_true]
    cases h : fs.stat (goJoin p sdImageName) with
    | none => simp [h]
    | some b =>
      cases h2 : fs.readDir (goJoin p sdImageName) with
      | none => simp [h, h2]
      | some entries =>
        cases h3 : entries.find? (fun e => !e.2 && goExt e.1 == imgExt) <;>
          simp [h, h2, h3]

/-- The reported path used to refute C1: a local build result whose
path happens to contain the marker text. -/
def basePathC1 : Str := "/home/u/sprout-docker-1/result".toList

/-- The filesystem used to refute C1: basePathC1 is a directory holding
an sd-image subdirectory with exactly one .img file, and no
result.img. -/
def fsC1 : FS :=
  ⟨fun p =>
    if p = basePathC1 then some true
    else if p = goJoin basePathC1 sdImageName then some true
    else if p = goJoin (goJoin basePathC1 sdImageName) ("x.img".toList) then some false
    else none,
   fun p =>
    if p = goJoin basePathC1 sdImageName then some [("x.img".toList, false)] else none⟩

/-- C1 counterexample: for this path — a directory with an sd-image
subdirectory holding exactly one .img file, i.e. exactly the layout the
claim prescribes for a Local result — `FindImageFile` returns an error
instead of the sd-image file, because the path text contains
"sprout-docker-": the strategy is chosen from the path text, not from
the backend kind that produced the result. -/
theorem C1_counterexample :
    (FindImageFile fsC1 basePathC1).1 = none ∧
    fsC1.stat basePathC1 = some true ∧
    fsC1.readDir (goJoin basePathC1 sdImageName) = some [("x.img".toList, false)] ∧
    localStrategy fsC1 basePathC1 =
      some (goJoin (goJoin basePathC1 sdImageName) ("x.img".toList)) := by
  refine ⟨by decide, by decide, by decide, by decide⟩

/-- Witness for the amended C1 at the concrete marker path: the Docker
branch is taken and agrees with the containerized strategy. -/
theorem C1_dispatch_on_path_text_witness :
    (FindImageFile fsC1 basePathC1).1 = containerizedStrategy fsC1 basePathC1 :=
  (C1_dispatch_on_path_text fsC1 basePathC1 true (by decide) (by decide)).1 (by decide)

/-- `bufio.ScanLines` drops one trailing carriage return (byte 13) from
each line. -/
def dropCR (l : List Nat) : List Nat :=
  if l.getLast? = some 13 then l.dropLast else l

/-- The token loop of a `bufio.Scanner` with `ScanLines`: emit the text
before each newline (byte 10, trailing CR dropped); at end of input a
non-empty remainder is emitted as a final token. -/
def scanTokensAux : List Nat → List Nat → List (List Nat)
  | [], cur => if cur = [] then [] else [dropCR cur.reverse]
  | 10 :: rest, cur => dropCR cur.reverse :: scanTokensAux rest []
  | b :: rest, cur => scanTokensAux rest (b :: cur)

/-- All tokens the scanner produces for a payload. -/
def scanTokens (bs : List Nat) : List (List Nat) :=
  scanTokensAux bs []

/-- The byte-level white space trimmed by `strings.TrimSpace` on the
ASCII payloads considered (tab, LF, VT, FF, CR, space). -/
def byteIsSpace (b : Nat) : Bool :=
  b == 9 || b == 10 || b == 11 || b == 12 || b == 13 || b == 32

/-- `strings.TrimSpace` at the byte level. -/
def trimSpaceBytes (s : List Nat) : List Nat :=
  ((s.dropWhile byteIsSpace).reverse.dropWhile byteIsSpace).reverse

/-- The per-payload line processing of `processDockerLogs`: scan the
payload into lines, trim each, keep the non-empty ones — these are the
lines appended (each followed by a newline) to the accumulation buffer
and forwarded to the rolling display. -/
def cleanLines (payload : List Nat) : List (List Nat) :=
  ((scanTokens payload).map trimSpaceBytes).filter fun l => !l.isEmpty

/-- The payload size encoded in an 8-byte Docker log header: bytes 4-7,
big endian (`int(header[4])<<24 | ... | int(header[7])`; for bytes
below 256 the bitwise or of the disjoint shifted fields is their
sum). -/
def payloadSizeOf (header : List Nat) : Nat :=
  header.getD 4 0 * 2 ^ 24 + header.getD 5 0 * 2 ^ 16 +
    header.getD 6 0 * 2 ^ 8 + header.getD 7 0

/-- The frame loop of `processDockerLogs` (src/nix/build_docker.go
lines 204-235, identical to the inline loop in src/nix/nix.go lines
636-671): read an 8-byte header (stop when fewer than 8 bytes remain),
compute the payload size, skip empty payloads, read the payload (stop
when it is incomplete), append its cleaned lines to the accumulated
output, and continue. -/
def demux (stream : List Nat) (acc : List (List Nat)) : List (List Nat) :=
  if _h8 : stream.length < 8 then acc
  else
    let psize := payloadSizeOf (stream.take 8)
    let rest := stream.drop 8
    if psize = 0 then demux rest acc
    else if rest.length < psize then acc
    else demux (rest.drop psize) (acc ++ cleanLines (rest.take psize))
termination_by stream.length
decreasing_by
  all_goals simp only [List.length_drop]
  all_goals omega

/-- The accumulation buffer produced by `processDockerLogs` for a whole
log stream, as the list of accumulated lines. -/
def processDockerLogs (stream : List Nat) : List (List Nat) :=
  demux stream []

/-- The big-endian length field of a Docker log header. -/
def beBytes (size : Nat) : List Nat :=
  [size / 2 ^ 24 % 256, size / 2 ^ 16 % 256, size / 2 ^ 8 % 256, size % 256]

/-- A complete multiplexed frame: stream-type byte, three zero bytes,
big-endian payload length, payload. -/
def mkFrame (streamType : Nat) (payload : List Nat) : List Nat :=
  streamType :: 0 :: 0 :: 0 :: beBytes payload.length ++ payload

/-- A sequence of complete frames, encoded. -/
def framesOf (frames : List (Nat × List Nat)) : List Nat :=
  (frames.map fun f => mkFrame f.1 f.2).flatten

/-- A stream remnant ending in a truncated header (fewer than 8 bytes)
or a truncated payload (a complete header whose positive declared
payload size exceeds the remaining bytes). -/
def truncatedTail (t : List Nat) : Prop :=
  t.length < 8 ∨
    (8 ≤ t.length ∧ 0 < payloadSizeOf (t.take 8) ∧
      t.length < 8 + payloadSizeOf (t.take 8))

lemma mkFrame_decomp (t : Nat) (p : List Nat) :
    mkFrame t p = (t :: 0 :: 0 :: 0 :: beBytes p.length) ++ p := by
  simp [mkFrame, beBytes]

lemma payloadSizeOf_header (t : Nat) (p : List Nat) (h : p.length < 2 ^ 32) :
    payloadSizeOf (t :: 0 :: 0 :: 0 :: beBytes p.length) = p.length := by
  simp [payloadSizeOf, beBytes]
  omega

lemma demux_truncated (t : List Nat) (acc : List (List Nat)) (h : truncatedTail t) :
    demux t acc = acc := by
  rw [demux]
  rcases h with h | ⟨h1, h2, h3⟩
  · rw [dif_pos h]
  · rw [dif_neg (show ¬ t.length < 8 by omega)]
    show (if payloadSizeOf (t.take 8) = 0 then demux (t.drop 8) acc
      else if (t.drop 8).length < payloadSizeOf (t.take 8) then acc
      else demux ((t.drop 8).drop (payloadSizeOf (t.take 8)))
        (acc ++ cleanLines ((t.drop 8).take (payloadSizeOf (t.take 8))))) = acc
    rw [if_neg (show ¬ payloadSizeOf (t.take 8) = 0 by omega),
      if_pos (show (t.drop 8).length < payloadSizeOf (t.take 8) by
        rw [List.length_drop]; omega)]

lemma demux_framesOf (frames : List (Nat × List Nat)) :
    ∀ t acc, (∀ f ∈ frames, f.2.length < 2 ^ 32) →
      demux (framesOf frames ++ t) acc =
        demux t (acc ++ (frames.map fun f => cleanLines f.2).flatten) := by
  induction frames with
  | nil => intro t acc _; simp [framesOf]
  | cons f rest ih =>
      intro t acc h
      have hlen : f.2.length < 2 ^ 32 := h f (List.mem_cons_self _ _)
      have hrest : ∀ g ∈ rest, g.2.length < 2 ^ 32 :=
        fun g hg => h g (List.mem_cons_of_mem _ hg)
      have hstream : framesOf (f :: rest) ++ t =
          (f.1 :: 0 :: 0 :: 0 :: beBytes f.2.length) ++ (f.2 ++ (framesOf rest ++ t)) := by
        simp [framesOf, mkFrame_decomp]
      have hA : (f.1 :: 0 :: 0 :: 0 :: beBytes f.2.length).length = 8 := by
        simp [beBytes]
      have htake : ((f.1 :: 0 :: 0 :: 0 :: beBytes f.2.length) ++
          (f.2 ++ (framesOf rest ++ t))).take 8 = f.1 :: 0 :: 0 :: 0 :: beBytes f.2.length := by
        rw [← hA]
        exact List.take_left _ _
      have hdrop : ((f.1 :: 0 :: 0 :: 0 :: beBytes f.2.length) ++
          (f.2 ++ (framesOf rest ++ t))).drop 8 = f.2 ++ (framesOf rest ++ t) := by
        rw [← hA]
        exact List.drop_left _ _
      have h8 : ¬ ((f.1 :: 0 :: 0 :: 0 :: beBytes f.2.length) ++
          (f.2 ++ (framesOf rest ++ t))).length < 8 := by
        rw [List.length_append, hA]
        omega
      rw [hstream, demux, dif_neg h8]
      simp only [htake, hdrop, payloadSizeOf_header f.1 f.2 hlen]
      by_cases hz : f.2.length = 0
      · have hB : f.2 = [] := List.length_eq_zero.mp hz
        simp only [hz, if_true, hB, List.nil_append]
        rw [ih t acc hrest]
        simp [cleanLines, scanTokens, scanTokensAux, hB]
      · have hno : ¬ ((f.2 ++ (framesOf rest ++ t)).length < f.2.length) := by
          rw [List.length_append]
          omega
        rw [if_neg hz, if_neg hno, List.take_left, List.drop_left]
        rw [ih t (acc ++ cleanLines f.2) hrest]
        simp [List.append_assoc]

/-- Payload "ok\n" padded to the declared length 5 (CR-LF padding). -/
def okPayload : List Nat := [111, 107, 10, 13, 10]

/-- Payload "err\n" padded to the declared length 5 (CR padding). -/
def errPayload : List Nat := [101, 114, 114, 10, 13]

/-- C4: for a stream of one complete frame whose 8-byte header declares
(big-endian, in its last 4 bytes) payload length 5 carrying "ok\n"
(padded per the frame), followed by one complete frame carrying "err\n",
the demultiplexer appends exactly the lines "ok" and "err", uncorrupted,
to the accumulation buffer; and for any stream of complete frames
followed by a truncated header or truncated payload, decoding
terminates at that point, appending exactly the complete frames' lines
and no partial line. -/
theorem C4_demux_frames_and_truncation :
    processDockerLogs (mkFrame 1 okPayload ++ mkFrame 2 errPayload) =
      [[111, 107], [101, 114, 114]] ∧
    ∀ frames t, (∀ f ∈ frames, f.2.length < 2 ^ 32) → truncatedTail t →
      processDockerLogs (framesOf frames ++ t) =
        (frames.map fun f => cleanLines f.2).flatten := by
  constructor
  · have h1 : mkFrame 1 okPayload ++ mkFrame 2 errPayload =
        framesOf [(1, okPayload), (2, errPayload)] ++ [] := by
      simp [framesOf]
    rw [processDockerLogs, h1,
      demux_framesOf [(1, okPayload), (2, errPayload)] [] [] (by decide),
      demux_truncated [] _ (Or.inl (by decide))]
    decide
  · intro frames t hf ht
    rw [processDockerLogs, demux_framesOf frames t [] hf, demux_truncated t _ ht]
    simp

/-- Witness for C4 at a concrete truncated stream: one complete frame
carrying "k\n" followed by three stray bytes (a truncated header). -/
theorem C4_demux_frames_and_truncation_witness :
    processDockerLogs (framesOf [(1, [107, 10])] ++ [0, 0, 0]) = [[107]] := by
  rw [C4_demux_frames_and_truncation.2 [(1, [107, 10])] [0, 0, 0] (by decide)
    (Or.inl (by decide))]
  decide

/-- The artifact-path convention "/nix/store/" scanned for by
`extractNixStorePath`. -/
def nixStorePre : Str := "/nix/store/".toList

/-- The backward scan of `extractNixStorePath`: walk the lines from the
last to the first (the argument is the reversed line list) and return
the first trimmed line starting with "/nix/store/". -/
def extractLoopRev : List Str → Option Str
  | [] => none
  | l :: rest =>
    if nixStorePre.isPrefixOf (trimSpace l) then some (trimSpace l)
    else extractLoopRev rest

/-- `strings.Split` with a one-character separator. -/
def goSplitOn (sep : Char) : Str → List Str
  | [] => [[]]
  | c :: rest =>
    if c = sep then [] :: goSplitOn sep rest
    else
      match goSplitOn sep rest with
      | [] => [[c]]
      | t :: ts => (c :: t) :: ts

/-- `extractNixStorePath` (src/nix/build_docker.go lines 237-253,
identical to the inline scan in src/nix/nix.go lines 688-702): split
the trimmed output on newlines and scan from the last line towards the
first for a trimmed line with the "/nix/store/" path convention;
`none` models the ExtractionError ("could not find Nix store path in
build output"). -/
def extractNixStorePath (output : Str) : Option Str :=
  extractLoopRev (goSplitOn '\n' (trimSpace output)).reverse

/-- The accumulation buffer holding the given lines: each line is
appended followed by a newline (`buildOutput.WriteString(line + "\n")`
in `processDockerLogs`). -/
def bufferOf (lines : List Str) : Str :=
  (lines.map fun l => l ++ ['\n']).flatten

/-- The newline-intercalated text of a list of lines. -/
def intercalNl : List Str → Str
  | [] => []
  | [l] => l
  | l :: rest => l ++ '\n' :: intercalNl rest

lemma dropWhile_append_of_self {p : Char → Bool} {a b : Str}
    (h : a.dropWhile p = a) (hne : a ≠ []) :
    (a ++ b).dropWhile p = a ++ b := by
  rw [List.dropWhile_append, h]
  simp [List.isEmpty_iff, hne]

lemma trimmed_dropWhile {l : Str} (h : trimSpace l = l) :
    l.dropWhile goIsSpace = l ∧ l.reverse.dropWhile goIsSpace = l.reverse := by
  have hsub : l.dropWhile goIsSpace <:+ l := List.dropWhile_suffix _
  have hlen1 : (((l.dropWhile goIsSpace).reverse.dropWhile goIsSpace).reverse).length ≤
      (l.dropWhile goIsSpace).length := by
    rw [List.length_reverse]
    calc ((l.dropWhile goIsSpace).reverse.dropWhile goIsSpace).length
        ≤ (l.dropWhile goIsSpace).reverse.length :=
          ((l.dropWhile goIsSpace).reverse.dropWhile_suffix goIsSpace).length_le
      _ = (l.dropWhile goIsSpace).length := List.length_reverse _
  have hdl : l.dropWhile goIsSpace = l := by
    have hlen2 : (l.dropWhile goIsSpace).length ≤ l.length := hsub.length_le
    have : l.length ≤ (l.dropWhile goIsSpace).length := by
      conv_lhs => rw [← h]
      exact hlen1
    exact hsub.eq_of_length (le_antisymm hlen2 this)
  refine ⟨hdl, ?_⟩
  have h2 : (l.reverse.dropWhile goIsSpace).reverse = l := by
    conv_rhs => rw [← h]
    rw [trimSpace, hdl]
  have h3 := congrArg List.reverse h2
  rwa [List.reverse_reverse] at h3

lemma intercalNl_ne_nil {lines : List Str} (hne : lines ≠ [])
    (h : ∀ l ∈ lines, l ≠ []) : intercalNl lines ≠ [] := by
  cases lines with
  | nil => exact absurd rfl hne
  | cons l rest =>
      cases rest with
      | nil => exact h l (List.mem_cons_self _ _)
      | cons m ms =>
          simp only [intercalNl]
          intro hc
          exact h l (List.mem_cons_self _ _) (List.append_eq_nil.mp hc).1

lemma dropWhile_intercalNl {lines : List Str} (hne : lines ≠ [])
    (h : ∀ l ∈ lines, l ≠ [] ∧ trimSpace l = l) :
    (intercalNl lines).dropWhile goIsSpace = intercalNl lines := by
  cases lines with
  | nil => exact absurd rfl hne
  | cons l rest =>
      have hl := h l (List.mem_cons_self _ _)
      have hd := (trimmed_dropWhile hl.2).1
      cases rest with
      | nil => exact hd
      | cons m ms =>
          simp only [intercalNl]
          exact dropWhile_append_of_self hd hl.1

lemma dropWhile_reverse_intercalNl {lines : List Str} (hne : lines ≠ [])
    (h : ∀ l ∈ lines, l ≠ [] ∧ trimSpace l = l) :
    (intercalNl lines).reverse.dropWhile goIsSpace = (intercalNl lines).reverse := by
  induction lines with
  | nil => exact absurd rfl hne
  | cons l rest ih =>
      have hl := h l (List.mem_cons_self _ _)
      have hdr := (trimmed_dropWhile hl.2).2
      cases rest with
      | nil => exact hdr
      | cons m ms =>
          have hrest : ∀ x ∈ m :: ms, x ≠ [] ∧ trimSpace x = x :=
            fun x hx => h x (List.mem_cons_of_mem _ hx)
          have ihr := ih (by simp) hrest
          have hrne : (intercalNl (m :: ms)).reverse ≠ [] := by
            simp only [ne_eq, List.reverse_eq_nil_iff]
            exact intercalNl_ne_nil (by simp) (fun x hx => (hrest x hx).1)
          show (intercalNl (l :: m :: ms)).reverse.dropWhile goIsSpace =
            (intercalNl (l :: m :: ms)).reverse
          have hdecomp : (intercalNl (l :: m :: ms)).reverse =
              (intercalNl (m :: ms)).reverse ++ ('\n' :: l.reverse) := by
            show (l ++ '\n' :: intercalNl (m :: ms)).reverse = _
            rw [List.reverse_append, List.reverse_cons]
            simp
          rw [hdecomp]
          rw [dropWhile_append_of_self ihr hrne]

lemma bufferOf_cons (l : Str) (rest : List Str) :
    bufferOf (l :: rest) = (l ++ ['\n']) ++ bufferOf rest := by
  simp [bufferOf]

lemma bufferOf_eq_intercal (lines : List Str) (hne : lines ≠ []) :
    bufferOf lines = intercalNl lines ++ ['\n'] := by
  induction lines with
  | nil => exact absurd rfl hne
  | cons l rest ih =>
      cases rest with
      | nil => simp [bufferOf, intercalNl]
      | cons m ms =>
          rw [bufferOf_cons, ih (by simp)]
          simp [intercalNl]

lemma trimSpace_bufferOf {lines : List Str} (hne : lines ≠ [])
    (h : ∀ l ∈ lines, l ≠ [] ∧ trimSpace l = l) :
    trimSpace (bufferOf lines) = intercalNl lines := by
  rw [bufferOf_eq_intercal lines hne, trimSpace]
  rw [dropWhile_append_of_self (dropWhile_intercalNl hne h)
    (intercalNl_ne_nil hne (fun l hl => (h l hl).1))]
  rw [List.reverse_append]
  show ((['\n'].reverse ++ (intercalNl lines).reverse).dropWhile goIsSpace).reverse = _
  rw [List.reverse_singleton, List.singleton_append,
    List.dropWhile_cons_of_pos (by decide : goIsSpace '\n' = true),
    dropWhile_reverse_intercalNl hne h, List.reverse_reverse]

lemma goSplitOn_no_sep (sep : Char) (l : Str) (h : sep ∉ l) :
    goSplitOn sep l = [l] := by
  induction l with
  | nil => rfl
  | cons c r ih =>
      have hc : c ≠ sep := fun hcc => h (hcc ▸ List.mem_cons_self _ _)
      simp only [goSplitOn, if_neg hc, ih (fun hm => h (List.mem_cons_of_mem _ hm))]

lemma goSplitOn_append (sep : Char) (l x : Str) (h : sep ∉ l) :
    goSplitOn sep (l ++ sep :: x) = l :: goSplitOn sep x := by
  induction l with
  | nil => simp [goSplitOn]
  | cons c r ih =>
      have hc : c ≠ sep := fun hcc => h (hcc ▸ List.mem_cons_self _ _)
      simp only [List.cons_append, goSplitOn, if_neg hc, List.append_eq,
        ih (fun hm => h (List.mem_cons_of_mem _ hm))]

lemma goSplitOn_intercalNl (lines : List Str) (hne : lines ≠ [])
    (h : ∀ l ∈ lines, '\n' ∉ l) :
    goSplitOn '\n' (intercalNl lines) = lines := by
  induction lines with
  | nil => exact absurd rfl hne
  | cons l rest ih =>
      cases rest with
      | nil => exact goSplitOn_no_sep _ _ (h l (List.mem_cons_self _ _))
      | cons m ms =>
          show goSplitOn '\n' (l ++ '\n' :: intercalNl (m :: ms)) = _
          rw [goSplitOn_append _ _ _ (h l (List.mem_cons_self _ _)),
            ih (by simp) (fun x hx => h x (List.mem_cons_of_mem _ hx))]

lemma extractLoopRev_eq_find (ls : List Str) (h : ∀ l ∈ ls, trimSpace l = l) :
    extractLoopRev ls = ls.find? fun l => nixStorePre.isPrefixOf l := by
  induction ls with
  | nil => rfl
  | cons l rest ih =>
      have hl := h l (List.mem_cons_self _ _)
      rw [extractLoopRev, hl, List.find?_cons]
      by_cases hp : nixStorePre.isPrefixOf l = true
      · simp [hp]
      · simp only [Bool.not_eq_true] at hp
        simp [hp, ih (fun x hx => h x (List.mem_cons_of_mem _ hx))]

/-- C6: for accumulated output lines of the form `processDockerLogs`
produces (non-empty, trimmed, newline-free), `extractNixStorePath`
scans the buffer's lines from last to first and returns the first line
encountered — the last in stream order — that begins with
"/nix/store/", and it errors exactly when no accumulated line has that
prefix. -/
theorem C6_extract_backward_scan (lines : List Str)
    (h : ∀ l ∈ lines, l ≠ [] ∧ trimSpace l = l ∧ '\n' ∉ l) :
    extractNixStorePath (bufferOf lines) =
      (lines.reverse.find? fun l => nixStorePre.isPrefixOf l) ∧
    (extractNixStorePath (bufferOf lines) = none ↔
      ∀ l ∈ lines, nixStorePre.isPrefixOf l = false) := by
  have hmain : extractNixStorePath (bufferOf lines) =
      lines.reverse.find? fun l => nixStorePre.isPrefixOf l := by
    cases lines with
    | nil => decide
    | cons l0 rest0 =>
        have hne : l0 :: rest0 ≠ [] := List.cons_ne_nil _ _
        rw [extractNixStorePath,
          trimSpace_bufferOf hne (fun x hx => ⟨(h x hx).1, (h x hx).2.1⟩),
          goSplitOn_intercalNl _ hne (fun x hx => (h x hx).2.2),
          extractLoopRev_eq_find _
            (fun x hx => (h x (List.mem_reverse.mp hx)).2.1)]
  refine ⟨hmain, ?_⟩
  rw [hmain, List.find?_eq_none]
  constructor
  · intro hnone l hl
    have h2 := hnone l (List.mem_reverse.mpr hl)
    simp only [Bool.not_eq_true] at h2
    exact h2
  · intro hall l hl
    simp only [Bool.not_eq_true]
    exact hall l (List.mem_reverse.mp hl)

/-- Witness for C6: two store lines in the buffer; the later one is
returned. -/
theorem C6_extract_backward_scan_witness :
    extractNixStorePath (bufferOf
      ["building".toList, "/nix/store/aaa-img".toList,
        "copying".toList, "/nix/store/bbb-img".toList, "done".toList]) =
      some ("/nix/store/bbb-img".toList) := by
  rw [(C6_extract_backward_scan
    ["building".toList, "/nix/store/aaa-img".toList,
      "copying".toList, "/nix/store/bbb-img".toList, "done".toList] (by decide)).1]
  decide

/-- The configuration model rendered into the build description
(`SproutFile`, src/nix/nix.go lines 60-67): ssh keys, the wireless
flag and name-to-credential mapping (a Go map, modelled as an
association list with pairwise-distinct names whose order carries no
meaning), the output path, the container-spec configuration (enabled
flag, source path, raw and rewritten content, resolved images as
local-tag/archive-path pairs), the autodiscovery flag and the
companion-binary path. -/
structure Configuration where
  sshKeys : List Str
  wirelessEnabled : Bool
  networks : List (Str × Str)
  outputPath : Str
  composeEnabled : Bool
  composePath : Str
  composeContent : Str
  modifiedContent : Str
  images : List (Str × Str)
  autodiscovery : Bool
  sproutBinaryPath : Str

/-- Byte-lexicographic strict order on strings, as Go compares string
map keys for sorting. -/
def strLtB : Str → Str → Bool
  | [], [] => false
  | [], _ :: _ => true
  | _ :: _, [] => false
  | a :: as, b :: bs => if a < b then true else if b < a then false else strLtB as bs

/-- The non-strict companion order. -/
def strLeB (a b : Str) : Bool := !(strLtB b a)

/-- Modelled from the spec: the build-description template
(image.nix.tmpl, referenced by `go:embed` from src/nix/build.go but not
itself among the sources).  Per the design document the template has
substitution points for the ssh keys, the wireless networks, the
rewritten container specification, the per-image embedding directives
(local tag and archive path), the autodiscovery toggle and the optional
companion-binary path; the surrounding literal template text is fixed
and therefore omitted.  Go's text/template visits a ranged-over map in
sorted key order, so the wireless network map is rendered sorted by
name; lists are rendered in their own order. -/
def render (c : Configuration) : Str :=
  (c.sshKeys.map fun k => k ++ ['\n']).flatten
  ++ (if c.wirelessEnabled then
        ((c.networks.mergeSort fun x y => strLeB x.1 y.1).map
          fun kv => kv.1 ++ '=' :: kv.2 ++ ['\n']).flatten
      else [])
  ++ (if c.composeEnabled then c.modifiedContent else [])
  ++ (c.images.map fun im => im.1 ++ ':' :: im.2 ++ ['\n']).flatten
  ++ (if c.autodiscovery then c.sproutBinaryPath ++ ['\n'] else [])

lemma strLtB_asymm (a : Str) : ∀ b, strLtB a b = true → strLtB b a = true → False := by
  induction a with
  | nil =>
      intro b hab hba
      cases b with
      | nil => simp [strLtB] at hab
      | cons bb bs => simp [strLtB] at hba
  | cons aa as ih =>
      intro b hab hba
      cases b with
      | nil => simp [strLtB] at hab
      | cons bb bs =>
          simp only [strLtB] at hab hba
          by_cases h1 : aa < bb
          · simp only [h1, if_true] at hba
            rw [if_neg (lt_asymm h1)] at hba
            simp at hba
          · simp only [h1, if_false] at hab
            by_cases h2 : bb < aa
            · simp [h2] at hab
            · simp only [h2, if_false] at hab hba
              rw [if_neg h1] at hba
              exact ih bs hab hba

lemma strLtB_eq_of_not (a : Str) :
    ∀ b, strLtB a b = false → strLtB b a = false → a = b := by
  induction a with
  | nil =>
      intro b hab _
      cases b with
      | nil => rfl
      | cons bb bs => simp [strLtB] at hab
  | cons aa as ih =>
      intro b hab hba
      cases b with
      | nil => simp [strLtB] at hba
      | cons bb bs =>
          simp only [strLtB] at hab hba
          by_cases h1 : aa < bb
          · simp [h1] at hab
          · by_cases h2 : bb < aa
            · simp [h2] at hba
            · rw [if_neg h1, if_neg h2] at hab
              rw [if_neg h2, if_neg h1] at hba
              have hk : aa = bb := le_antisymm (not_lt.mp h2) (not_lt.mp h1)
              rw [hk, ih bs hab hba]

lemma strLtB_trans (a : Str) :
    ∀ b c, strLtB a b = true → strLtB b c = true → strLtB a c = true := by
  induction a with
  | nil =>
      intro b c hab hbc
      cases b with
      | nil => simp [strLtB] at hab
      | cons bb bs =>
          cases c with
          | nil => simp [strLtB] at hbc
          | cons cc cs => simp [strLtB]
  | cons aa as ih =>
      intro b c hab hbc
      cases b with
      | nil => simp [strLtB] at hab
      | cons bb bs =>
          cases c with
          | nil => simp [strLtB] at hbc
          | cons cc cs =>
              simp only [strLtB] at hab hbc ⊢
              by_cases h1 : aa < bb
              · by_cases h2 : bb < cc
                · simp [lt_trans h1 h2]
                · simp only [h2, if_false] at hbc
                  by_cases h3 : cc < bb
                  · simp [h3] at hbc
                  · have hk : bb = cc := le_antisymm (not_lt.mp h3) (not_lt.mp h2)
                    simp [← hk, h1]
              · simp only [h1, if_false] at hab
                by_cases h3 : bb < aa
                · simp [h3] at hab
                · have hk : aa = bb := le_antisymm (not_lt.mp h3) (not_lt.mp h1)
                  by_cases h2 : bb < cc
                  · simp [hk, h2]
                  · simp only [h2, if_false] at hbc
                    by_cases h4 : cc < bb
                    · simp [h4] at hbc
                    · have hk2 : bb = cc := le_antisymm (not_lt.mp h4) (not_lt.mp h2)
                      rw [if_neg h3] at hab
                      rw [if_neg h4] at hbc
                      have := ih bs cs hab hbc
                      rw [hk, hk2]
                      simp [lt_irrefl, this]

lemma pairLe_trans (x y z : Str × Str) (hxy : strLeB x.1 y.1 = true)
    (hyz : strLeB y.1 z.1 = true) : strLeB x.1 z.1 = true := by
  simp only [strLeB, Bool.not_eq_true'] at hxy hyz ⊢
  cases hza : strLtB z.1 x.1 with
  | false => rfl
  | true =>
      exfalso
      cases hyz3 : strLtB y.1 z.1 with
      | true =>
          have hyx := strLtB_trans y.1 z.1 x.1 hyz3 hza
          rw [hyx] at hxy
          simp at hxy
      | false =>
          have heq : y.1 = z.1 := strLtB_eq_of_not y.1 z.1 hyz3 hyz
          rw [heq, hza] at hxy
          simp at hxy

lemma pairLe_total (x y : Str × Str) :
    (strLeB x.1 y.1 || strLeB y.1 x.1) = true := by
  simp only [strLeB]
  cases h1 : strLtB y.1 x.1 <;> cases h2 : strLtB x.1 y.1 <;> simp
  exact strLtB_asymm _ _ h2 h1

lemma mergeSort_fixed_by_perm {l₁ l₂ : List (Str × Str)}
    (hperm : l₁.Perm l₂) (hnodup : (l₁.map Prod.fst).Nodup) :
    l₁.mergeSort (fun x y => strLeB x.1 y.1) =
      l₂.mergeSort (fun x y => strLeB x.1 y.1) := by
  have hp : (l₁.mergeSort fun x y => strLeB x.1 y.1).Perm
      (l₂.mergeSort fun x y => strLeB x.1 y.1) :=
    ((l₁.mergeSort_perm _).trans hperm).trans (l₂.mergeSort_perm _).symm
  have hs₁ := @List.sorted_mergeSort (Str × Str) (fun x y => strLeB x.1 y.1)
    (fun a b c => pairLe_trans a b c) (fun a b => pairLe_total a b) l₁
  have hs₂ := @List.sorted_mergeSort (Str × Str) (fun x y => strLeB x.1 y.1)
    (fun a b c => pairLe_trans a b c) (fun a b => pairLe_total a b) l₂
  have hnd₁ : ((l₁.mergeSort fun x y => strLeB x.1 y.1).map Prod.fst).Nodup :=
    (((l₁.mergeSort_perm _).map Prod.fst).nodup_iff).mpr hnodup
  have hnd₂ : ((l₂.mergeSort fun x y => strLeB x.1 y.1).map Prod.fst).Nodup :=
    (((l₂.mergeSort_perm _).map Prod.fst).nodup_iff).mpr
      (((hperm.map Prod.fst).nodup_iff).mp hnodup)
  have hstrict : ∀ (l : List (Str × Str)),
      l.Pairwise (fun a b => strLeB a.1 b.1 = true) →
      (l.map Prod.fst).Nodup →
      l.Pairwise (fun a b => strLtB a.1 b.1 = true) := by
    intro l hs hnd
    have hpw : l.Pairwise fun a b => a.1 ≠ b.1 := List.pairwise_map.mp hnd
    refine (hs.and hpw).imp ?_
    intro a b hab
    obtain ⟨hle, hne⟩ := hab
    simp only [strLeB, Bool.not_eq_true'] at hle
    cases h : strLtB a.1 b.1 with
    | true => rfl
    | false => exact absurd (strLtB_eq_of_not a.1 b.1 h hle) hne
  haveI : IsAntisymm (Str × Str) (fun a b => strLtB a.1 b.1 = true) :=
    ⟨fun a b hab hba => (strLtB_asymm a.1 b.1 hab hba).elim⟩
  exact List.eq_of_perm_of_sorted hp
    (hstrict _ hs₁ hnd₁) (hstrict _ hs₂ hnd₂)

/-- C7: rendering is deterministic: two Configuration values that are
equal as values — all fields equal, with the wireless network maps
equal as maps (association lists that are permutations of one another,
names duplicate-free) — render to byte-identical build descriptions,
because every list substitution point is rendered in list order and the
ranged-over network map is rendered in sorted name order. -/
theorem C7_render_deterministic (c₁ c₂ : Configuration)
    (hssh : c₁.sshKeys = c₂.sshKeys)
    (hwe : c₁.wirelessEnabled = c₂.wirelessEnabled)
    (hnet : c₁.networks.Perm c₂.networks)
    (hnodup : (c₁.networks.map Prod.fst).Nodup)
    (_hout : c₁.outputPath = c₂.outputPath)
    (hce : c₁.composeEnabled = c₂.composeEnabled)
    (_hcp : c₁.composePath = c₂.composePath)
    (_hcc : c₁.composeContent = c₂.composeContent)
    (hmc : c₁.modifiedContent = c₂.modifiedContent)
    (himg : c₁.images = c₂.images)
    (hauto : c₁.autodiscovery = c₂.autodiscovery)
    (hbin : c₁.sproutBinaryPath = c₂.sproutBinaryPath) :
    render c₁ = render c₂ := by
  rw [render, render, hssh, hwe, hce, hmc, himg, hauto, hbin,
    mergeSort_fixed_by_perm hnet hnodup]

/-- Witness for C7: the same configuration with its two wireless
networks listed in either order renders identically. -/
theorem C7_render_deterministic_witness :
    render ⟨["ssh-ed25519 AAA".toList], true,
        [("wifi-b".toList, "p1".toList), ("wifi-a".toList, "p2".toList)],
        "build/image.img".toList, true, "docker-compose.yml".toList,
        "raw".toList, "mod".toList,
        [("embedded/redis".toList, "/tmp/redis.tar".toList)],
        true, "/tmp/sprout".toList⟩ =
      render ⟨["ssh-ed25519 AAA".toList], true,
        [("wifi-a".toList, "p2".toList), ("wifi-b".toList, "p1".toList)],
        "build/image.img".toList, true, "docker-compose.yml".toList,
        "raw".toList, "mod".toList,
        [("embedded/redis".toList, "/tmp/redis.tar".toList)],
        true, "/tmp/sprout".toList⟩ :=
  C7_render_deterministic _ _ rfl rfl (by decide) (by decide)
    rfl rfl rfl rfl rfl rfl rfl rfl

end Sprout
